import Mathlib

/-!
Shallow embedding of the DAO governance contract
(src/examples/dao/ink!/dao/lib.rs) and verification of the frozen claims
about its proposal lifecycle, voting, quorum and execution logic.

Modelling conventions:
* Machine integers (u64 timestamps, u128 balances) are modelled as Nat.
  The one place where u64 underflow is live (the two timestamp
  subtractions in halve_min_quorum) is modelled with an explicit
  wrap-around subtraction sub64.  Balance-typed quantities (u128) never
  overflow in practice (bounded by total issuance), so they are plain Nat.
* ink storage Mappings with get(..).unwrap_or(default) are modelled as
  total functions with that default; BTreeMap<AccountId,bool> lookups in
  a proposal likewise.
* Rust panics (out-of-range Vec indexing, failed refund transfer) are
  modelled by Option: a result of none means the call traps.  A native
  token transfer to an externally owned account is modelled as always
  succeeding; it does not change any contract storage field.
* The keccak-256 hash ink_env::hash_encoded over (recipient, amount,
  transaction_data) is host-library code, not part of this repository;
  it is an abstract parameter of type Keccak throughout.
* The external cross-contract dispatch fired by invoke_transaction is
  opaque; its success is an oracle parameter invoke_ok, and the contract
  state at the instant of dispatch is recorded in the run result
  (field dispatched) so that reentrancy claims can be stated.
-/

abbrev AccountId := Nat

/-- Abstract keccak-256 commitment over (recipient, amount, transaction_data). -/
abbrev Keccak := AccountId → Nat → List Nat → Nat

/-- Pointwise update of a Mapping / BTreeMap modelled as a total function. -/
def mapInsert {β : Type} (m : Nat → β) (k : Nat) (v : β) : Nat → β :=
  fun a => if a = k then v else m a

-- Time constants from the source (SECOND = 1).
def SECOND : Nat := 1
def MINUTE : Nat := 60 * SECOND
def HOUR : Nat := 60 * MINUTE
def DAY : Nat := 24 * HOUR
def WEEK : Nat := 7 * DAY

def MIN_PROPOSAL_DEBATE_PERIOD : Nat := 2 * WEEK
def QUORUM_HALVING_PERIOD : Nat := 25 * WEEK
def EXECUTE_PROPOSAL_PERIOD : Nat := 10 * DAY
def PRE_SUPPORT_TIME : Nat := 2 * DAY
def MAX_DEPOSIT_DIVISOR : Nat := 100

/-- u64 range. -/
def U64 : Nat := 2 ^ 64

/-- Wrapping u64 subtraction (release-mode semantics of a - b on u64). -/
def sub64 (a b : Nat) : Nat := (a % U64 + (U64 - b % U64)) % U64

/-- Host environment data observed by a single message call. -/
structure Env where
  caller : AccountId
  now : Nat
  transferred_value : Nat
  account_id : AccountId
  balance : Nat

structure Proposal where
  recipient : AccountId
  amount : Nat
  description : List Nat
  voting_deadline : Nat
  open_ : Bool
  proposal_passed : Bool
  proposal_hash : Nat
  proposal_deposit : Nat
  new_curator : Bool
  pre_support : Bool
  yea : Nat
  nay : Nat
  voted_yes : AccountId → Bool
  voted_no : AccountId → Bool
  creator : AccountId

/-- Rust Proposal::default(): zero / false / empty everywhere. -/
instance : Inhabited Proposal :=
  ⟨{ recipient := 0, amount := 0, description := [], voting_deadline := 0,
     open_ := false, proposal_passed := false, proposal_hash := 0,
     proposal_deposit := 0, new_curator := false, pre_support := false,
     yea := 0, nay := 0, voted_yes := fun _ => false, voted_no := fun _ => false,
     creator := 0 }⟩

structure Dao where
  proposals : List Proposal
  min_quorum_divisor : Nat
  last_time_min_quorum_met : Nat
  curator : AccountId
  allowed_recipients : AccountId → Bool
  blocked : AccountId → Nat
  voting_register : AccountId → List Nat
  proposal_deposit : Nat
  sum_of_proposal_deposits : Nat

instance : Inhabited Dao :=
  ⟨{ proposals := [], min_quorum_divisor := 7, last_time_min_quorum_met := 0,
     curator := 0, allowed_recipients := fun _ => false, blocked := fun _ => 0,
     voting_register := fun _ => [], proposal_deposit := 0,
     sum_of_proposal_deposits := 0 }⟩

inductive Error where
  | InsufficientBalance
  | InsufficientAllowance
  | InsufficientPrivileges
  | ProposalExecutionFailed
  | ProposalCreationFailed
  | OutsideDeadline
  | TransactionFailed
  | CallerIsCurator
  | UnableToHalveQuorum
  deriving DecidableEq, Repr

inductive Event where
  | ProposalAdded (proposal_id : Nat) (recipient : AccountId) (amount : Nat)
      (description : List Nat)
  | Voted (proposal_id : Nat) (position : Bool) (voter : AccountId)
  | ProposalTallied (proposal_id : Nat) (result : Bool) (quorum : Nat)
  | AllowedRecipientChanged (recipient : AccountId) (allowed : Bool)
  deriving DecidableEq, Repr

/-- Constructor Dao::new / new_init.  The token_contract_hash argument is
ignored by the source (TODO stub there), so it is omitted here. -/
def dao_new (env : Env) (curator : AccountId) (proposal_deposit : Nat) : Dao :=
  { proposals := [default],
    min_quorum_divisor := 7,
    last_time_min_quorum_met := env.now,
    curator := curator,
    allowed_recipients :=
      mapInsert (mapInsert (fun _ => false) env.account_id true) curator true,
    blocked := fun _ => 0,
    voting_register := fun _ => [],
    proposal_deposit := proposal_deposit,
    sum_of_proposal_deposits := 0 }

/-- actual_balance: env balance minus escrowed deposits. -/
def actual_balance (env : Env) (s : Dao) : Nat :=
  env.balance - s.sum_of_proposal_deposits

/-- min_quorum as the source computes it.  Note the source divides by 3 and
then MULTIPLIES by actual_balance (`/ 3 * self.actual_balance()`); the
parenthesisation of the Solidity original quoted in its own comment
(`/ (3 * (actualBalance()))`) is not what the Rust expression does. -/
def min_quorum (env : Env) (s : Dao) (value : Nat) : Nat :=
  let tmp_token_supply := 1
  tmp_token_supply / s.min_quorum_divisor
    + value * tmp_token_supply / 3 * actual_balance env s

/-- Modelled from the spec: the nominal quorum formula of section 4.4,
total_voting_weight / min_quorum_divisor
  + (value * total_voting_weight) / (3 * spendable_balance),
with total_voting_weight the stubbed constant 1.  Stated only to compare
with the source's min_quorum. -/
def min_quorum_spec (env : Env) (s : Dao) (value : Nat) : Nat :=
  1 / s.min_quorum_divisor + value * 1 / (3 * actual_balance env s)

/-- new_proposal.  Deposit is the transferred value. -/
def new_proposal (k : Keccak) (env : Env) (s : Dao) (recipient : AccountId)
    (amount : Nat) (description : List Nat) (transaction_data : List Nat)
    (debating_period : Nat) : Dao × Except Error Nat × List Event :=
  let caller := env.caller
  let deposit := env.transferred_value
  if ¬ (s.allowed_recipients recipient = true)
      ∨ debating_period < MIN_PROPOSAL_DEBATE_PERIOD
      ∨ debating_period > 8 * WEEK
      ∨ deposit < s.proposal_deposit
      ∨ caller = env.account_id then
    (s, .error .ProposalCreationFailed, [])
  else
    -- to prevent curator from halving quorum before first proposal
    let s :=
      if s.proposals.length = 1 then
        { s with last_time_min_quorum_met := env.now }
      else s
    let proposal_id : Nat := s.proposals.length
    let p : Proposal :=
      { recipient := recipient, amount := amount, description := description,
        voting_deadline := env.now + debating_period,
        open_ := true, proposal_passed := false,
        proposal_hash := k recipient amount transaction_data,
        proposal_deposit := deposit, new_curator := false, pre_support := false,
        yea := 0, nay := 0,
        voted_yes := fun _ => false, voted_no := fun _ => false,
        creator := caller }
    let s := { s with
      sum_of_proposal_deposits := s.sum_of_proposal_deposits + deposit,
      proposals := s.proposals ++ [p] }
    (s, .ok proposal_id,
      [.ProposalAdded proposal_id recipient amount description])

/-- check_proposal_code; none models the panic on an out-of-range index. -/
def check_proposal_code (k : Keccak) (s : Dao) (proposal_id : Nat)
    (recipient : AccountId) (amount : Nat) (transaction_data : List Nat) :
    Option Bool :=
  match s.proposals[proposal_id]? with
  | none => none
  | some p => some (decide (p.proposal_hash = k recipient amount transaction_data))

/-- un_vote; none models the panic on an out-of-range index. -/
def un_vote (env : Env) (s : Dao) (proposal_id : Nat) : Option Dao :=
  match s.proposals[proposal_id]? with
  | none => none
  | some p =>
    if p.voting_deadline ≤ env.now then
      some s
    else
      let p :=
        if p.voted_yes env.caller = true then
          { p with yea := p.yea - 1,
                   voted_yes := mapInsert p.voted_yes env.caller false }
        else p
      let p :=
        if p.voted_no env.caller = true then
          { p with nay := p.nay - 1,
                   voted_no := mapInsert p.voted_no env.caller false }
        else p
      some { s with proposals := s.proposals.set proposal_id p }

/-- vote.  Note two behaviours of the source carried over faithfully:
there is no deadline check in vote itself (only inside the initial
un_vote, which silently returns past the deadline), and the push onto the
voting_register is performed on a local copy obtained from Mapping::get
and never written back, so the stored register is unchanged. -/
def vote (env : Env) (s : Dao) (proposal_id : Nat) (supports_proposal : Bool) :
    Option (Dao × List Event) :=
  match un_vote env s proposal_id with
  | none => none
  | some s0 =>
    match s0.proposals[proposal_id]? with
    | none => none
    | some p =>
      let p1 :=
        if supports_proposal then
          { p with yea := p.yea + 1,
                   voted_yes := mapInsert p.voted_yes env.caller true }
        else
          { p with nay := p.nay + 1,
                   voted_no := mapInsert p.voted_no env.caller true }
      let s1 := { s0 with proposals := s0.proposals.set proposal_id p1 }
      let blocked_proposal := s1.blocked env.caller
      let upd : Option Dao :=
        if blocked_proposal = 0 then
          some { s1 with blocked := mapInsert s1.blocked env.caller proposal_id }
        else
          match s1.proposals[blocked_proposal]? with
          | none => none
          | some bp =>
            if bp.voting_deadline < p1.voting_deadline then
              some { s1 with blocked := mapInsert s1.blocked env.caller proposal_id }
            else
              some s1
      match upd with
      | none => none
      | some s2 =>
        -- let voted_proposals = voting_register.get(caller).unwrap_or(new);
        -- voted_proposals.push(proposal_id);
        -- lost update in the source: the pushed vector is never inserted back
        some (s2, [.Voted proposal_id supports_proposal env.caller])

/-- One iteration pair (i, register[i]) of the un_vote_all loop.  The source
reads proposals[register[i]] for the deadline check but then calls
un_vote(i) with the LOOP INDEX, not the registered proposal id. -/
def un_vote_all_loop (env : Env) (s : Dao) (pairs : List (Nat × Nat)) :
    Option Dao :=
  match pairs with
  | [] => some s
  | (i, pid) :: rest =>
    match s.proposals[pid]? with
    | none => none
    | some p =>
      let step : Option Dao :=
        if env.now < p.voting_deadline then un_vote env s i else some s
      match step with
      | none => none
      | some s1 => un_vote_all_loop env s1 rest

def un_vote_all (env : Env) (s : Dao) : Option Dao :=
  let caller := env.caller
  let register := s.voting_register caller
  match un_vote_all_loop env s register.enum with
  | none => none
  | some s1 =>
    some { s1 with
      voting_register := mapInsert s1.voting_register caller [],
      blocked := mapInsert s1.blocked caller 0 }

/-- close_proposal. -/
def close_proposal (s : Dao) (proposal_id : Nat) : Option Dao :=
  match s.proposals[proposal_id]? with
  | none => none
  | some p =>
    let s :=
      if p.open_ = true then
        { s with sum_of_proposal_deposits :=
            s.sum_of_proposal_deposits - p.proposal_deposit }
      else s
    some { s with proposals := s.proposals.set proposal_id { p with open_ := false } }

/-- change_proposal_deposit: silent no-op when the caller is the contract
itself or the bound is violated. -/
def change_proposal_deposit (env : Env) (s : Dao) (proposal_deposit : Nat) : Dao :=
  if env.caller = env.account_id
      ∨ proposal_deposit > actual_balance env s / MAX_DEPOSIT_DIVISOR then
    s
  else
    { s with proposal_deposit := proposal_deposit }

def change_allowed_recipients (env : Env) (s : Dao) (recipient : AccountId)
    (allowed : Bool) : Dao × Except Error Unit × List Event :=
  if env.caller ≠ s.curator then
    (s, .error .CallerIsCurator, [])
  else
    ({ s with allowed_recipients := mapInsert s.allowed_recipients recipient allowed },
     .ok (), [.AllowedRecipientChanged recipient allowed])

def halve_min_quorum (env : Env) (s : Dao) : Dao × Except Error Unit :=
  if (s.last_time_min_quorum_met < sub64 env.now QUORUM_HALVING_PERIOD
        ∨ env.caller = s.curator)
      ∧ s.last_time_min_quorum_met < sub64 env.now MIN_PROPOSAL_DEBATE_PERIOD
      ∧ s.proposals.length > 1 then
    ({ s with last_time_min_quorum_met := env.now,
              min_quorum_divisor := s.min_quorum_divisor * 2 }, .ok ())
  else
    (s, .error .UnableToHalveQuorum)

def get_or_modify_blocked (account : AccountId) (s : Dao) : Option (Dao × Bool) :=
  let prop_id := s.blocked account
  if prop_id = 0 then
    some (s, false)
  else
    match s.proposals[prop_id]? with
    | none => none
    | some p =>
      if p.open_ = false then
        some ({ s with blocked := mapInsert s.blocked account 0 }, false)
      else
        some (s, true)

def unblock_me (env : Env) (s : Dao) : Option (Dao × Bool) :=
  get_or_modify_blocked env.caller s

/-- Result of one execute_proposal run.  dispatched records the contract
state at the instant the external call is fired (none if no dispatch). -/
structure ExecResult where
  dao : Dao
  res : Except Error Unit
  events : List Event
  dispatched : Option Dao

instance : Inhabited ExecResult := ⟨⟨default, .ok (), [], none⟩⟩

/-- execute_proposal.  invoke_ok is the oracle outcome of the external
dispatch (invoke_transaction); the native refund transfers to the
creator are modelled as succeeding without touching contract storage. -/
def execute_proposal (k : Keccak) (invoke_ok : Bool) (env : Env) (s : Dao)
    (proposal_id : Nat) (function_selector : List Nat)
    (transaction_data : List Nat) : Option ExecResult :=
  let now := env.now
  match s.proposals[proposal_id]? with
  | none => none
  | some p =>
    -- late-cleanup path
    if p.open_ = true ∧ p.voting_deadline + EXECUTE_PROPOSAL_PERIOD < now then
      (close_proposal s proposal_id).map (fun s1 => ⟨s1, .ok (), [], none⟩)
    else
      let output := k p.recipient p.amount transaction_data
      -- validation (step 2)
      if now < p.voting_deadline ∨ p.open_ = false ∨ p.proposal_passed = true
          ∨ p.proposal_hash ≠ output then
        some ⟨s, .error .ProposalExecutionFailed, [], none⟩
      else if ¬ (s.allowed_recipients p.recipient = true) then
        -- deposit-return path (transfer of the deposit to the creator)
        (close_proposal s proposal_id).map (fun s1 => ⟨s1, .ok (), [], none⟩)
      else
        let proposal_check : Bool :=
          if p.amount > actual_balance env s ∨ p.pre_support = false then
            false
          else true
        let quorum := p.yea
        let proposal_check : Bool :=
          if 4 ≤ transaction_data.length
              ∧ transaction_data.getD 0 0 = 0x68
              ∧ transaction_data.getD 1 0 = 0x37
              ∧ transaction_data.getD 2 0 = 0xff
              ∧ transaction_data.getD 3 0 = 0x1e
              ∧ quorum < min_quorum env s (actual_balance env s) then
            false
          else proposal_check
        -- quorum met: refund the creator's deposit, record the time
        let s1 : Dao :=
          if min_quorum env s p.amount ≤ quorum then
            { s with last_time_min_quorum_met := now }
          else s
        if min_quorum env s1 p.amount ≤ quorum ∧ p.nay < p.yea
            ∧ proposal_check = true then
          -- set the reentrancy guard before the external dispatch
          let sd : Dao :=
            { s1 with proposals :=
                s1.proposals.set proposal_id { p with proposal_passed := true } }
          if invoke_ok then
            (close_proposal sd proposal_id).map
              (fun s2 => ⟨s2, .ok (),
                [.ProposalTallied proposal_id true quorum], some sd⟩)
          else
            some ⟨sd, .error .TransactionFailed, [], some sd⟩
        else
          (close_proposal s1 proposal_id).map
            (fun s2 => ⟨s2, .ok (),
              [.ProposalTallied proposal_id true quorum], none⟩)

def number_of_proposals (s : Dao) : Nat := s.proposals.length - 1

/-! ## Basic lemmas -/

theorem set_of_getElem? {α : Type} {l : List α} {i : Nat} {a : α}
    (h : l[i]? = some a) : l.set i a = l := by
  induction l generalizing i with
  | nil => simp at h
  | cons x xs ih =>
    cases i with
    | zero => simp_all
    | succ n =>
      simp only [List.getElem?_cons_succ] at h
      simp [ih h]

theorem sub64_eq {a b : Nat} (hb : b ≤ a) (ha : a < U64) : sub64 a b = a - b := by
  have hbU : b < U64 := lt_of_le_of_lt hb ha
  have h1 : a + (U64 - b % U64) = a - b + U64 := by
    rw [Nat.mod_eq_of_lt hbU]; omega
  unfold sub64
  rw [Nat.mod_eq_of_lt ha, h1, Nat.add_mod_right, Nat.mod_eq_of_lt (by omega)]

/-! ## C2: the min_quorum formula -/

def env2 : Env := ⟨0, 0, 0, 0, 2⟩

def dao2 : Dao := dao_new env2 1 0

/-- C2: claimed, min_quorum(v) = total_voting_weight / min_quorum_divisor
+ (v * total_voting_weight) / (3 * spendable_balance) with
total_voting_weight = 1.  The source instead computes
(v * 1) / 3 * actual_balance(), i.e. it multiplies by the spendable
balance instead of dividing by 3 * spendable_balance, contradicting the
formula quoted in its own comment.  At min_quorum_divisor = 7, value = 6,
balance = 2, no escrowed deposits: the code yields 4, the claimed
formula yields 1. -/
theorem C2_min_quorum_code_bug :
    min_quorum env2 dao2 6 = 4 ∧ min_quorum_spec env2 dao2 6 = 1 ∧ (4 : Nat) ≠ 1 :=
  ⟨rfl, rfl, by decide⟩

/-! ## C6: halve_min_quorum -/

/-- The success condition of halve_min_quorum as the claim phrases it. -/
def halveCondition (env : Env) (s : Dao) : Prop :=
  (s.last_time_min_quorum_met + QUORUM_HALVING_PERIOD < env.now
      ∨ env.caller = s.curator)
    ∧ s.last_time_min_quorum_met + MIN_PROPOSAL_DEBATE_PERIOD < env.now
    ∧ 1 < s.proposals.length

instance (env : Env) (s : Dao) : Decidable (halveCondition env s) := by
  unfold halveCondition; infer_instance

/-- C6: halve_min_quorum succeeds iff (the halving period has elapsed since
last_time_min_quorum_met or the caller is the curator) and the minimum
debate period has elapsed and more than one proposal entry exists; on
success it doubles min_quorum_divisor and sets last_time_min_quorum_met
to now, otherwise it returns UnableToHalveQuorum with no state change.
The timestamp hypotheses keep the u64 subtractions un-wrapped, which is
always the case for realistic block timestamps. -/
theorem C6_halve_min_quorum (env : Env) (s : Dao)
    (h1 : QUORUM_HALVING_PERIOD ≤ env.now) (h2 : env.now < U64) :
    (((halve_min_quorum env s).2 = .ok ()) ↔ halveCondition env s)
    ∧ (halveCondition env s →
        halve_min_quorum env s =
          ({ s with last_time_min_quorum_met := env.now,
                    min_quorum_divisor := s.min_quorum_divisor * 2 }, .ok ()))
    ∧ (¬ halveCondition env s →
        halve_min_quorum env s = (s, .error .UnableToHalveQuorum)) := by
  have hmin : MIN_PROPOSAL_DEBATE_PERIOD ≤ env.now := by
    have : MIN_PROPOSAL_DEBATE_PERIOD ≤ QUORUM_HALVING_PERIOD := by decide
    omega
  have e1 : sub64 env.now QUORUM_HALVING_PERIOD = env.now - QUORUM_HALVING_PERIOD :=
    sub64_eq h1 h2
  have e2 : sub64 env.now MIN_PROPOSAL_DEBATE_PERIOD =
      env.now - MIN_PROPOSAL_DEBATE_PERIOD := sub64_eq hmin h2
  have hcond :
      ((s.last_time_min_quorum_met < sub64 env.now QUORUM_HALVING_PERIOD
          ∨ env.caller = s.curator)
        ∧ s.last_time_min_quorum_met < sub64 env.now MIN_PROPOSAL_DEBATE_PERIOD
        ∧ s.proposals.length > 1) ↔ halveCondition env s := by
    rw [e1, e2]
    unfold halveCondition
    constructor
    · rintro ⟨ha, hb, hc⟩
      exact ⟨ha.imp (fun h => by omega) id, by omega, hc⟩
    · rintro ⟨ha, hb, hc⟩
      exact ⟨ha.imp (fun h => by omega) id, by omega, hc⟩
  unfold halve_min_quorum
  by_cases hc : halveCondition env s
  · rw [if_pos (hcond.mpr hc)]
    exact ⟨by simp [hc], fun _ => rfl, fun h => absurd hc h⟩
  · rw [if_neg (fun h => hc (hcond.mp h))]
    exact ⟨by simp [hc], fun h => absurd h hc, fun _ => rfl⟩

def env6 : Env := ⟨9, 20000000, 0, 0, 0⟩

def dao6 : Dao :=
  { proposals := [default, default], min_quorum_divisor := 7,
    last_time_min_quorum_met := 0, curator := 3,
    allowed_recipients := fun _ => false, blocked := fun _ => 0,
    voting_register := fun _ => [], proposal_deposit := 1,
    sum_of_proposal_deposits := 0 }

/-- Witness for C6 at a concrete successful call. -/
theorem C6_halve_min_quorum_witness :
    halve_min_quorum env6 dao6 =
      ({ dao6 with last_time_min_quorum_met := 20000000,
                   min_quorum_divisor := 14 }, .ok ()) :=
  (C6_halve_min_quorum env6 dao6 (by decide) (by decide)).2.1 (by decide)

/-! ## C7: out-of-range proposal ids -/

/-- C7 as stated is false: an out-of-range id does not produce a NotFound
error value (the source's Error enum has no NotFound variant at all);
the Vec indexing panics, modelled here as the none result.  Concretely,
on a store holding only the sentinel, id 5 traps in every operation. -/
theorem C7_counterexample :
    vote env2 dao2 5 true = none
    ∧ un_vote env2 dao2 5 = none
    ∧ check_proposal_code (fun _ _ _ => 0) dao2 5 0 0 [] = none
    ∧ execute_proposal (fun _ _ _ => 0) true env2 dao2 5 [] [] = none :=
  ⟨rfl, rfl, rfl, rfl⟩

/-- C7 amended: an operation given a proposal id out of range of the store
panics (the indexing traps, aborting the call), rather than returning a
NotFound-style error; the contract's Error type has no NotFound variant. -/
theorem C7_out_of_range_traps (k : Keccak) (ok b : Bool) (env : Env) (s : Dao)
    (id : Nat) (recipient amount : Nat) (sel td : List Nat)
    (h : s.proposals.length ≤ id) :
    check_proposal_code k s id recipient amount td = none
    ∧ vote env s id b = none
    ∧ un_vote env s id = none
    ∧ execute_proposal k ok env s id sel td = none := by
  have hid : s.proposals[id]? = none := List.getElem?_eq_none h
  refine ⟨?_, ?_, ?_, ?_⟩
  · unfold check_proposal_code; rw [hid]
  · unfold vote un_vote; rw [hid]
  · unfold un_vote; rw [hid]
  · unfold execute_proposal; rw [hid]

/-- Witness for C7 (amended) at a concrete out-of-range input. -/
theorem C7_out_of_range_traps_witness :
    check_proposal_code (fun _ _ _ => 0) dao2 9 0 0 [] = none
    ∧ vote env2 dao2 9 false = none
    ∧ un_vote env2 dao2 9 = none
    ∧ execute_proposal (fun _ _ _ => 0) false env2 dao2 9 [] [] = none :=
  C7_out_of_range_traps (fun _ _ _ => 0) false false env2 dao2 9 0 0 [] []
    (by decide)

/-! ## un_vote characterization -/

/-- The proposal record produced by an un_vote that runs before the
deadline (revocation of the caller's standing vote, if any). -/
def unVoted (caller : AccountId) (p : Proposal) : Proposal :=
  let p :=
    if p.voted_yes caller = true then
      { p with yea := p.yea - 1, voted_yes := mapInsert p.voted_yes caller false }
    else p
  let p :=
    if p.voted_no caller = true then
      { p with nay := p.nay - 1, voted_no := mapInsert p.voted_no caller false }
    else p
  p

theorem un_vote_late {env : Env} {s : Dao} {id : Nat} {p : Proposal}
    (hp : s.proposals[id]? = some p) (hnow : p.voting_deadline ≤ env.now) :
    un_vote env s id = some s := by
  unfold un_vote
  rw [hp]
  simp [hnow]

theorem un_vote_early {env : Env} {s : Dao} {id : Nat} {p : Proposal}
    (hp : s.proposals[id]? = some p) (hnow : env.now < p.voting_deadline) :
    un_vote env s id =
      some { s with proposals := s.proposals.set id (unVoted env.caller p) } := by
  unfold un_vote unVoted
  rw [hp]
  simp [Nat.not_le.mpr hnow]

theorem unVoted_yea (caller : AccountId) (p : Proposal) :
    (unVoted caller p).yea = p.yea - (if p.voted_yes caller = true then 1 else 0) := by
  unfold unVoted
  by_cases h1 : p.voted_yes caller = true <;> by_cases h2 : p.voted_no caller = true <;>
    simp [h1, h2]

theorem unVoted_nay (caller : AccountId) (p : Proposal) :
    (unVoted caller p).nay = p.nay - (if p.voted_no caller = true then 1 else 0) := by
  unfold unVoted
  by_cases h1 : p.voted_yes caller = true <;> by_cases h2 : p.voted_no caller = true <;>
    simp [h1, h2]

theorem unVoted_voted_yes (caller : AccountId) (p : Proposal) :
    (unVoted caller p).voted_yes caller = false := by
  unfold unVoted
  by_cases h1 : p.voted_yes caller = true <;> by_cases h2 : p.voted_no caller = true <;>
    simp [h1, h2, mapInsert]

theorem unVoted_voted_no (caller : AccountId) (p : Proposal) :
    (unVoted caller p).voted_no caller = false := by
  unfold unVoted
  by_cases h1 : p.voted_yes caller = true <;> by_cases h2 : p.voted_no caller = true <;>
    simp [h1, h2, mapInsert]

theorem unVoted_fields (caller : AccountId) (p : Proposal) :
    (unVoted caller p).voting_deadline = p.voting_deadline
    ∧ (unVoted caller p).open_ = p.open_
    ∧ (unVoted caller p).proposal_deposit = p.proposal_deposit
    ∧ (unVoted caller p).recipient = p.recipient
    ∧ (unVoted caller p).amount = p.amount
    ∧ (unVoted caller p).proposal_passed = p.proposal_passed
    ∧ (unVoted caller p).pre_support = p.pre_support
    ∧ (unVoted caller p).proposal_hash = p.proposal_hash := by
  unfold unVoted
  by_cases h1 : p.voted_yes caller = true <;> by_cases h2 : p.voted_no caller = true <;>
    simp [h1, h2]

theorem unVoted_of_not_voted {caller : AccountId} {p : Proposal}
    (hy : p.voted_yes caller = false) (hn : p.voted_no caller = false) :
    unVoted caller p = p := by
  unfold unVoted
  simp [hy, hn]

/-- C9: un_vote at or after the voting_deadline leaves the state unchanged;
un_vote before the deadline by a voter with a standing vote removes exactly
that voter's one-unit contribution from the matching tally and zeroes
their voted_yes / voted_no flag; and un_vote by a voter who never voted
is a no-op that never errors (it returns successfully with the state
unchanged).  The tally lower bounds hold in every reachable state (a set
flag accounts for one unit of the tally). -/
theorem C9_un_vote_semantics (env : Env) (s : Dao) (id : Nat) (p : Proposal)
    (hp : s.proposals[id]? = some p)
    (hy : p.voted_yes env.caller = true → 1 ≤ p.yea)
    (hn : p.voted_no env.caller = true → 1 ≤ p.nay) :
    (p.voting_deadline ≤ env.now → un_vote env s id = some s)
    ∧ (p.voted_yes env.caller = false → p.voted_no env.caller = false →
        un_vote env s id = some s)
    ∧ (env.now < p.voting_deadline →
        ∃ p', un_vote env s id =
            some { s with proposals := s.proposals.set id p' }
          ∧ p'.yea + (if p.voted_yes env.caller = true then 1 else 0) = p.yea
          ∧ p'.nay + (if p.voted_no env.caller = true then 1 else 0) = p.nay
          ∧ p'.voted_yes env.caller = false
          ∧ p'.voted_no env.caller = false) := by
  refine ⟨fun hnow => un_vote_late hp hnow, ?_, ?_⟩
  · intro hyf hnf
    rcases le_or_lt p.voting_deadline env.now with hnow | hnow
    · exact un_vote_late hp hnow
    · rw [un_vote_early hp hnow, unVoted_of_not_voted hyf hnf,
        set_of_getElem? hp]
  · intro hnow
    refine ⟨unVoted env.caller p, un_vote_early hp hnow, ?_, ?_,
      unVoted_voted_yes env.caller p, unVoted_voted_no env.caller p⟩
    · rw [unVoted_yea]
      by_cases hf : p.voted_yes env.caller = true
      · have := hy hf
        simp [hf]
        omega
      · simp [hf]
    · rw [unVoted_nay]
      by_cases hf : p.voted_no env.caller = true
      · have := hn hf
        simp [hf]
        omega
      · simp [hf]

def env9 : Env := ⟨4, 50, 0, 0, 0⟩

def p9 : Proposal :=
  { recipient := 2, amount := 1, description := [], voting_deadline := 100,
    open_ := true, proposal_passed := false, proposal_hash := 0,
    proposal_deposit := 3, new_curator := false, pre_support := false,
    yea := 1, nay := 0, voted_yes := fun a => a = 4, voted_no := fun _ => false,
    creator := 5 }

def dao9 : Dao :=
  { proposals := [default, p9], min_quorum_divisor := 7,
    last_time_min_quorum_met := 0, curator := 3,
    allowed_recipients := fun _ => false, blocked := fun _ => 0,
    voting_register := fun _ => [], proposal_deposit := 1,
    sum_of_proposal_deposits := 3 }

/-- Witness for C9: voter 4 has a standing yes vote on proposal 1 of dao9
(deadline 100) and un-votes at time 50. -/
theorem C9_un_vote_semantics_witness :
    ∃ p', un_vote env9 dao9 1 =
        some { dao9 with proposals := dao9.proposals.set 1 p' }
      ∧ p'.yea + 1 = 1 ∧ p'.nay + 0 = 0
      ∧ p'.voted_yes 4 = false ∧ p'.voted_no 4 = false := by
  have h := (C9_un_vote_semantics env9 dao9 1 p9 rfl
      (by decide) (by decide)).2.2 (by decide)
  rcases h with ⟨p', h1, h2, h3, h4, h5⟩
  refine ⟨p', h1, ?_, ?_, h4, h5⟩
  · simpa [p9, env9] using h2
  · simpa [p9, env9] using h3

/-! ## vote characterization -/

/-- The tally/flag update that vote applies after the initial un_vote. -/
def voteBump (caller : AccountId) (b : Bool) (p : Proposal) : Proposal :=
  if b then
    { p with yea := p.yea + 1, voted_yes := mapInsert p.voted_yes caller true }
  else
    { p with nay := p.nay + 1, voted_no := mapInsert p.voted_no caller true }

theorem vote_core {env : Env} {s s0 : Dao} {id : Nat} {p' : Proposal} {b : Bool}
    (huv : un_vote env s id = some s0)
    (hp : s0.proposals[id]? = some p')
    (hb : s0.blocked env.caller = 0 ∨ s0.blocked env.caller < s0.proposals.length) :
    ∃ s', vote env s id b = some (s', [.Voted id b env.caller])
      ∧ s'.proposals = s0.proposals.set id (voteBump env.caller b p')
      ∧ (s'.blocked env.caller = id ∨ s'.blocked env.caller = s0.blocked env.caller)
      ∧ (∀ a, a ≠ env.caller → s'.blocked a = s0.blocked a)
      ∧ s'.voting_register = s0.voting_register
      ∧ s'.sum_of_proposal_deposits = s0.sum_of_proposal_deposits
      ∧ s'.min_quorum_divisor = s0.min_quorum_divisor
      ∧ s'.last_time_min_quorum_met = s0.last_time_min_quorum_met
      ∧ s'.proposal_deposit = s0.proposal_deposit
      ∧ s'.allowed_recipients = s0.allowed_recipients
      ∧ s'.curator = s0.curator := by
  unfold vote
  rw [huv]
  dsimp only
  rw [hp]
  dsimp only
  rw [show
    (if b then
      { p' with yea := p'.yea + 1, voted_yes := mapInsert p'.voted_yes env.caller true }
     else
      { p' with nay := p'.nay + 1, voted_no := mapInsert p'.voted_no env.caller true })
      = voteBump env.caller b p' from rfl]
  by_cases hbz : s0.blocked env.caller = 0
  · rw [if_pos hbz]
    exact ⟨_, rfl, rfl, Or.inl (by simp [mapInsert]),
      fun a ha => by simp [mapInsert, ha], rfl, rfl, rfl, rfl, rfl, rfl, rfl⟩
  · rw [if_neg hbz]
    have hblt : s0.blocked env.caller < s0.proposals.length := by
      rcases hb with h | h
      · exact absurd h hbz
      · exact h
    have hblt' : s0.blocked env.caller <
        (s0.proposals.set id (voteBump env.caller b p')).length := by
      simpa using hblt
    rw [List.getElem?_eq_getElem hblt']
    dsimp only
    by_cases hcmp :
        ((s0.proposals.set id (voteBump env.caller b p'))[s0.blocked env.caller]).voting_deadline
          < (voteBump env.caller b p').voting_deadline
    · rw [if_pos hcmp]
      exact ⟨_, rfl, rfl, Or.inl (by simp [mapInsert]),
        fun a ha => by simp [mapInsert, ha], rfl, rfl, rfl, rfl, rfl, rfl, rfl⟩
    · rw [if_neg hcmp]
      exact ⟨_, rfl, rfl, Or.inr rfl, fun a ha => rfl,
        rfl, rfl, rfl, rfl, rfl, rfl, rfl⟩

theorem voteBump_yea (caller : AccountId) (b : Bool) (p : Proposal) :
    (voteBump caller b p).yea = p.yea + (if b then 1 else 0) := by
  unfold voteBump; cases b <;> simp

theorem voteBump_nay (caller : AccountId) (b : Bool) (p : Proposal) :
    (voteBump caller b p).nay = p.nay + (if b then 0 else 1) := by
  unfold voteBump; cases b <;> simp

theorem voteBump_voted_yes (caller : AccountId) (b : Bool) (p : Proposal) :
    (voteBump caller b p).voted_yes caller = (b || p.voted_yes caller) := by
  unfold voteBump; cases b <;> simp [mapInsert]

theorem voteBump_voted_no (caller : AccountId) (b : Bool) (p : Proposal) :
    (voteBump caller b p).voted_no caller = (!b || p.voted_no caller) := by
  unfold voteBump; cases b <;> simp [mapInsert]

theorem voteBump_fields (caller : AccountId) (b : Bool) (p : Proposal) :
    (voteBump caller b p).voting_deadline = p.voting_deadline
    ∧ (voteBump caller b p).open_ = p.open_
    ∧ (voteBump caller b p).proposal_deposit = p.proposal_deposit := by
  unfold voteBump; cases b <;> simp

/-! ## C3: voting at or after the deadline -/

def p3 : Proposal :=
  { recipient := 2, amount := 1, description := [], voting_deadline := 100,
    open_ := true, proposal_passed := false, proposal_hash := 0,
    proposal_deposit := 3, new_curator := false, pre_support := false,
    yea := 0, nay := 0, voted_yes := fun _ => false, voted_no := fun _ => false,
    creator := 5 }

def dao3 : Dao :=
  { proposals := [default, p3], min_quorum_divisor := 7,
    last_time_min_quorum_met := 0, curator := 3,
    allowed_recipients := fun _ => false, blocked := fun _ => 0,
    voting_register := fun _ => [], proposal_deposit := 1,
    sum_of_proposal_deposits := 3 }

def env3 : Env := ⟨7, 100, 0, 0, 0⟩

/-- C3 as stated is false: vote itself performs no deadline check (only the
inner un_vote silently returns after the deadline), so a vote cast exactly
at the deadline of proposal 1 of dao3 still raises yea from 0 to 1 and
records the caller in voted_yes. -/
theorem C3_counterexample :
    (vote env3 dao3 1 true).map
        (fun r => ((r.1.proposals.getD 1 default).yea,
                   (r.1.proposals.getD 1 default).voted_yes 7))
      = some (1, true) := rfl

/-- C3 amended: a vote call made at or after the proposal's voting_deadline
is NOT rejected; the revocation step is skipped (un_vote returns silently)
and the call still increments the chosen tally and records the caller's
vote flag.  The blocked-pointer hypothesis rules out the panic on a
dangling blocked pointer and holds in every reachable state. -/
theorem C3_vote_after_deadline (env : Env) (s : Dao) (id : Nat) (q : Proposal)
    (b : Bool) (hp : s.proposals[id]? = some q)
    (hnow : q.voting_deadline ≤ env.now)
    (hb : s.blocked env.caller = 0 ∨ s.blocked env.caller < s.proposals.length) :
    ∃ s', vote env s id b = some (s', [.Voted id b env.caller])
      ∧ s'.proposals = s.proposals.set id (voteBump env.caller b q)
      ∧ (voteBump env.caller b q).yea = q.yea + (if b then 1 else 0)
      ∧ (voteBump env.caller b q).nay = q.nay + (if b then 0 else 1)
      ∧ (b = true → (voteBump env.caller b q).voted_yes env.caller = true)
      ∧ (b = false → (voteBump env.caller b q).voted_no env.caller = true) := by
  have huv : un_vote env s id = some s := un_vote_late hp hnow
  obtain ⟨s', h1, h2, _⟩ := vote_core (b := b) huv hp hb
  exact ⟨s', h1, h2, voteBump_yea _ _ _, voteBump_nay _ _ _,
    fun hb' => by rw [voteBump_voted_yes, hb']; rfl,
    fun hb' => by rw [voteBump_voted_no, hb']; rfl⟩

/-- Witness for C3 (amended) at the concrete late vote of dao3. -/
theorem C3_vote_after_deadline_witness :
    ∃ s', vote env3 dao3 1 true = some (s', [.Voted 1 true 7])
      ∧ s'.proposals = dao3.proposals.set 1 (voteBump 7 true p3)
      ∧ (voteBump 7 true p3).yea = 1 := by
  obtain ⟨s', h1, h2, h3, _⟩ :=
    C3_vote_after_deadline env3 dao3 1 p3 true rfl (by decide) (Or.inl rfl)
  exact ⟨s', h1, h2, by simpa [p3] using h3⟩

/-! ## C5: repeated votes by the same voter -/

/-- A sequence of vote calls on one proposal (shared storage threaded). -/
def vote_seq (s : Dao) (id : Nat) (calls : List (Env × Bool)) : Option Dao :=
  match calls with
  | [] => some s
  | (env, b) :: rest =>
    match vote env s id b with
    | none => none
    | some r => vote_seq r.1 id rest

theorem vote_step {env : Env} {s : Dao} {id : Nat} {q : Proposal} {b : Bool}
    (hp : s.proposals[id]? = some q)
    (hnow : env.now < q.voting_deadline)
    (hb : s.blocked env.caller = 0 ∨ s.blocked env.caller < s.proposals.length) :
    ∃ s', vote env s id b = some (s', [.Voted id b env.caller])
      ∧ s'.proposals[id]? = some (voteBump env.caller b (unVoted env.caller q))
      ∧ s'.proposals.length = s.proposals.length
      ∧ (s'.blocked env.caller = id ∨ s'.blocked env.caller = s.blocked env.caller) := by
  have huv := un_vote_early hp hnow
  have hlen : id < s.proposals.length := (List.getElem?_eq_some.mp hp).1
  have hp0 :
      ({ s with proposals := s.proposals.set id (unVoted env.caller q) } :
        Dao).proposals[id]? = some (unVoted env.caller q) :=
    List.getElem?_set_self (l := s.proposals) hlen
  have hb0 :
      ({ s with proposals := s.proposals.set id (unVoted env.caller q) } :
          Dao).blocked env.caller = 0
        ∨ ({ s with proposals := s.proposals.set id (unVoted env.caller q) } :
          Dao).blocked env.caller <
          ({ s with proposals := s.proposals.set id (unVoted env.caller q) } :
            Dao).proposals.length := by
    simpa using hb
  obtain ⟨s', h1, h2, h3, _⟩ := vote_core (b := b) huv hp0 hb0
  refine ⟨s', h1, ?_, ?_, ?_⟩
  · rw [h2]
    simp only [List.set_set]
    exact List.getElem?_set_self (by simpa using hlen)
  · rw [h2]; simp
  · simpa using h3

theorem vote_seq_tally (c : AccountId) (id : Nat) (D Y N : Nat) :
    ∀ (calls : List (Env × Bool)) (s : Dao) (q : Proposal) (lb : Env × Bool),
      calls.getLast? = some lb →
      (∀ eb ∈ calls, (eb.1).caller = c ∧ (eb.1).now < D) →
      s.proposals[id]? = some q →
      q.voting_deadline = D →
      q.yea = Y + (if q.voted_yes c = true then 1 else 0) →
      q.nay = N + (if q.voted_no c = true then 1 else 0) →
      (s.blocked c = 0 ∨ s.blocked c < s.proposals.length) →
      ∃ s' q', vote_seq s id calls = some s'
        ∧ s'.proposals[id]? = some q'
        ∧ q'.yea = Y + (if lb.2 then 1 else 0)
        ∧ q'.nay = N + (if lb.2 then 0 else 1)
        ∧ q'.voted_yes c = lb.2 ∧ q'.voted_no c = !lb.2
        ∧ q'.voting_deadline = D := by
  intro calls
  induction calls with
  | nil => intro s q lb hlast; simp at hlast
  | cons eb rest ih =>
    intro s q lb hlast hall hp hD hy hnN hb
    obtain ⟨env, b⟩ := eb
    obtain ⟨hc, hnow⟩ := hall (env, b) (List.mem_cons_self _ _)
    dsimp only at hc hnow
    rw [← hD] at hnow
    rw [← hc] at hb
    obtain ⟨s1, h1, h2, h3, h4⟩ := vote_step (b := b) hp hnow hb
    set q2 := voteBump env.caller b (unVoted env.caller q) with hq2
    have hflags_y : q2.voted_yes c = b := by
      rw [hc] at hq2
      rw [hq2, voteBump_voted_yes, unVoted_voted_yes]
      simp
    have hflags_n : q2.voted_no c = !b := by
      rw [hc] at hq2
      rw [hq2, voteBump_voted_no, unVoted_voted_no]
      simp
    have hyea2 : q2.yea = Y + (if b then 1 else 0) := by
      rw [hc] at hq2
      rw [hq2, voteBump_yea, unVoted_yea]
      by_cases hf : q.voted_yes c = true <;> cases b <;> simp [hf] at hy ⊢ <;> omega
    have hnay2 : q2.nay = N + (if b then 0 else 1) := by
      rw [hc] at hq2
      rw [hq2, voteBump_nay, unVoted_nay]
      by_cases hf : q.voted_no c = true <;> cases b <;> simp [hf] at hnN ⊢ <;> omega
    have hD2 : q2.voting_deadline = D := by
      rw [hq2, (voteBump_fields _ _ _).1, (unVoted_fields _ _).1, hD]
    cases rest with
    | nil =>
      have hlb : lb = (env, b) := by
        have := hlast
        simp only [List.getLast?_singleton, Option.some_inj] at this
        exact this.symm
      refine ⟨s1, q2, ?_, h2, ?_, ?_, ?_, ?_, hD2⟩
      · unfold vote_seq
        rw [h1]
        rfl
      · rw [hlb, hyea2]
      · rw [hlb, hnay2]
      · rw [hlb, hflags_y]
      · rw [hlb, hflags_n]
    | cons r rest' =>
      have hlast' : (r :: rest').getLast? = some lb := by
        rwa [List.getLast?_cons_cons] at hlast
      have hall' : ∀ eb ∈ r :: rest', (eb.1).caller = c ∧ (eb.1).now < D :=
        fun eb hm => hall eb (List.mem_cons_of_mem _ hm)
      have hy2 : q2.yea = Y + (if q2.voted_yes c = true then 1 else 0) := by
        rw [hflags_y, hyea2]
      have hn2 : q2.nay = N + (if q2.voted_no c = true then 1 else 0) := by
        rw [hflags_n, hnay2]
        cases b <;> simp
      have hb2 : s1.blocked c = 0 ∨ s1.blocked c < s1.proposals.length := by
        rw [← hc]
        rcases h4 with h | h
        · right
          rw [h, h3]
          exact (List.getElem?_eq_some.mp hp).1
        · rw [h, h3]
          exact hb
      obtain ⟨s', q', hs1, hs2, hs3, hs4, hs5, hs6, hs7⟩ :=
        ih s1 q2 lb hlast' hall' h2 hD2 hy2 hn2 hb2
      refine ⟨s', q', ?_, hs2, hs3, hs4, hs5, hs6, hs7⟩
      unfold vote_seq
      rw [h1]
      exact hs1

/-- C5 as stated is false: votes cast at or after the deadline skip the
revocation step entirely, so voter 7 voting yes twice at the deadline of
proposal 1 of dao3 contributes two units: yea ends at 2. -/
theorem C5_counterexample :
    ((vote env3 dao3 1 true).bind (fun r => vote env3 r.1 1 true)).map
        (fun r => (r.1.proposals.getD 1 default).yea) = some 2 := rfl

/-- C5 amended: any nonempty sequence of repeated vote calls by the same
voter on the same proposal, each made BEFORE the proposal's
voting_deadline, never double-counts: afterwards the tallies reflect only
the voter's latest stance (exactly one unit contributed in total, on the
side of the last call).  After the deadline the revocation step is
skipped and repeated votes do double-count (see the counterexample). -/
theorem C5_no_double_count (c : AccountId) (s : Dao) (id : Nat) (q : Proposal)
    (calls : List (Env × Bool)) (lb : Env × Bool)
    (hlast : calls.getLast? = some lb)
    (hall : ∀ eb ∈ calls, (eb.1).caller = c ∧ (eb.1).now < q.voting_deadline)
    (hp : s.proposals[id]? = some q)
    (hyes : q.voted_yes c = false) (hno : q.voted_no c = false)
    (hb : s.blocked c = 0 ∨ s.blocked c < s.proposals.length) :
    ∃ s' q', vote_seq s id calls = some s'
      ∧ s'.proposals[id]? = some q'
      ∧ q'.yea = q.yea + (if lb.2 then 1 else 0)
      ∧ q'.nay = q.nay + (if lb.2 then 0 else 1)
      ∧ q'.voted_yes c = lb.2 ∧ q'.voted_no c = !lb.2 := by
  obtain ⟨s', q', h1, h2, h3, h4, h5, h6, _⟩ :=
    vote_seq_tally c id q.voting_deadline q.yea q.nay calls s q lb hlast hall
      hp rfl (by simp [hyes]) (by simp [hno]) hb
  exact ⟨s', q', h1, h2, h3, h4, h5, h6⟩

/-- Witness for C5 (amended): voter 7 votes yes then no on proposal 1 of
dao3 before the deadline; the final tallies show a single nay unit. -/
theorem C5_no_double_count_witness :
    ∃ s' q', vote_seq dao3 1 [(⟨7, 10, 0, 0, 0⟩, true), (⟨7, 10, 0, 0, 0⟩, false)]
        = some s'
      ∧ s'.proposals[1]? = some q' ∧ q'.yea = 0 ∧ q'.nay = 1 := by
  obtain ⟨s', q', h1, h2, h3, h4, _⟩ :=
    C5_no_double_count 7 dao3 1 p3
      [(⟨7, 10, 0, 0, 0⟩, true), (⟨7, 10, 0, 0, 0⟩, false)] (⟨7, 10, 0, 0, 0⟩, false)
      rfl
      (by
        intro eb hm
        simp only [List.mem_cons, List.mem_singleton] at hm
        rcases hm with h | h | h
        · subst h; exact ⟨rfl, by decide⟩
        · subst h; exact ⟨rfl, by decide⟩
        · simp at h)
      rfl rfl rfl (Or.inl rfl)
  exact ⟨s', q', h1, h2, by simpa [p3] using h3, by simpa [p3] using h4⟩

/-! ## C10: the ProposalTallied event -/

/-- Holds of every event that is not a ProposalTallied with result false. -/
def tallied_true : Event → Bool
  | .ProposalTallied _ result _ => result
  | _ => true

/-- C10: every ProposalTallied event emitted by an execute_proposal run has
result = true, regardless of whether the proposal actually passed or was
rejected at the quorum / majority / proposal_check test (the source emits
the literal true on the shared final close path). -/
theorem C10_tallied_event_always_true (k : Keccak) (ok : Bool) (env : Env)
    (s : Dao) (id : Nat) (sel td : List Nat) (r : ExecResult)
    (h : execute_proposal k ok env s id sel td = some r) :
    r.events.all tallied_true = true := by
  unfold execute_proposal at h
  cases hp : s.proposals[id]? with
  | none => rw [hp] at h; exact absurd h (by simp)
  | some p =>
    rw [hp] at h
    dsimp only at h
    repeat' split at h
    all_goals first
      | (obtain ⟨s1, _, hr⟩ := Option.map_eq_some'.mp h; rw [← hr]; rfl)
      | (obtain hr := Option.some_inj.mp h; rw [← hr]; rfl)

/-! ## C1: the reentrancy guard in execute_proposal -/

theorem exec_guard (k : Keccak) (ok : Bool) (env : Env) (s : Dao) (id : Nat)
    (sel td : List Nat) (q : Proposal)
    (hp : s.proposals[id]? = some q)
    (hpass : q.proposal_passed = true)
    (hcl : ¬ (q.voting_deadline + EXECUTE_PROPOSAL_PERIOD < env.now)) :
    execute_proposal k ok env s id sel td =
      some ⟨s, .error .ProposalExecutionFailed, [], none⟩ := by
  unfold execute_proposal
  rw [hp]
  dsimp only
  rw [if_neg (by tauto), if_pos (by tauto)]

theorem exec_dispatched_shape (k : Keccak) (ok : Bool) (env : Env) (s : Dao)
    (id : Nat) (sel td : List Nat) (r : ExecResult) (sd : Dao)
    (h : execute_proposal k ok env s id sel td = some r)
    (hd : r.dispatched = some sd) :
    ∃ q, sd.proposals[id]? = some q ∧ q.proposal_passed = true
      ∧ q.open_ = true
      ∧ ¬ (q.voting_deadline + EXECUTE_PROPOSAL_PERIOD < env.now) := by
  unfold execute_proposal at h
  cases hp : s.proposals[id]? with
  | none => rw [hp] at h; exact absurd h (by simp)
  | some p =>
    rw [hp] at h
    dsimp only at h
    have hlen : id < s.proposals.length := (List.getElem?_eq_some.mp hp).1
    split at h
    case isTrue h1 =>
      obtain ⟨s1, _, hr⟩ := Option.map_eq_some'.mp h
      rw [← hr] at hd
      simp at hd
    case isFalse h1 =>
      split at h
      case isTrue h2 =>
        obtain hr := Option.some_inj.mp h
        rw [← hr] at hd
        simp at hd
      case isFalse h2 =>
        split at h
        case isTrue h3 =>
          obtain ⟨s1, _, hr⟩ := Option.map_eq_some'.mp h
          rw [← hr] at hd
          simp at hd
        case isFalse h3 =>
          push_neg at h2
          obtain ⟨hnd, hopen, hpass, hhash⟩ := h2
          have hopen' : p.open_ = true := by
            cases hob : p.open_
            · exact absurd hob hopen
            · rfl
          have hncl : ¬ (p.voting_deadline + EXECUTE_PROPOSAL_PERIOD < env.now) :=
            fun hc => h1 ⟨hopen', hc⟩
          repeat' split at h
          all_goals first
            | (obtain ⟨s2, _, hr⟩ := Option.map_eq_some'.mp h
               rw [← hr] at hd
               dsimp only at hd
               first
                 | exact Option.noConfusion hd
                 | (obtain rfl := Option.some_inj.mp hd
                    exact ⟨_, List.getElem?_set_self hlen, rfl, hopen', hncl⟩))
            | (obtain hr := Option.some_inj.mp h
               rw [← hr] at hd
               dsimp only at hd
               first
                 | exact Option.noConfusion hd
                 | (obtain rfl := Option.some_inj.mp hd
                    exact ⟨_, List.getElem?_set_self hlen, rfl, hopen', hncl⟩))

theorem exec_passed_no_dispatch (k : Keccak) (ok : Bool) (env : Env) (s : Dao)
    (id : Nat) (sel td : List Nat) (r : ExecResult) (q : Proposal)
    (hp : s.proposals[id]? = some q) (hqpass : q.proposal_passed = true)
    (h : execute_proposal k ok env s id sel td = some r) :
    r.dispatched = none := by
  unfold execute_proposal at h
  rw [hp] at h
  dsimp only at h
  split at h
  · obtain ⟨s1, _, hr⟩ := Option.map_eq_some'.mp h
    rw [← hr]
  · split at h
    · obtain hr := Option.some_inj.mp h
      rw [← hr]
    · next h2 => exact absurd (Or.inr (Or.inr (Or.inl hqpass))) h2

/-- C1: execute_proposal sets proposal_passed to true before the external
dispatch: whenever a run dispatches, the state sd handed to the external
call already has proposal_passed = true for that id; any re-entrant
execute_proposal on sd for the same id (at the same block timestamp, as
re-entrant calls are) is rejected by validation step 2 with
ProposalExecutionFailed, no dispatch and no state change; and more
generally no run on a state whose proposal is already passed ever
dispatches, so the external call for a given proposal fires at most
once. -/
theorem C1_reentrancy_guard (k : Keccak) (ok : Bool) (env : Env) (s : Dao)
    (id : Nat) (sel td : List Nat) (r : ExecResult) (sd : Dao)
    (h : execute_proposal k ok env s id sel td = some r)
    (hd : r.dispatched = some sd) :
    (∃ q, sd.proposals[id]? = some q ∧ q.proposal_passed = true)
    ∧ (∀ k' ok' env' sel' td', env'.now = env.now →
        execute_proposal k' ok' env' sd id sel' td' =
          some ⟨sd, .error .ProposalExecutionFailed, [], none⟩)
    ∧ (∀ k2 ok2 env2 s2 sel2 td2 r2 q2,
        s2.proposals[id]? = some q2 → q2.proposal_passed = true →
        execute_proposal k2 ok2 env2 s2 id sel2 td2 = some r2 →
        r2.dispatched = none) := by
  obtain ⟨q, hq, hqpass, hqopen, hqcl⟩ :=
    exec_dispatched_shape k ok env s id sel td r sd h hd
  refine ⟨⟨q, hq, hqpass⟩, ?_, ?_⟩
  · intro k' ok' env' sel' td' hnow
    have hcl' : ¬ (q.voting_deadline + EXECUTE_PROPOSAL_PERIOD < env'.now) := by
      rw [hnow]; exact hqcl
    exact exec_guard k' ok' env' sd id sel' td' q hq hqpass hcl'
  · intro k2 ok2 env2 s2 sel2 td2 r2 q2 hp2 hpass2 h2
    exact exec_passed_no_dispatch k2 ok2 env2 s2 id sel2 td2 r2 q2 hp2 hpass2 h2

def keccak0 : Keccak := fun _ _ _ => 0

def envA : Env := ⟨8, 100, 0, 0, 0⟩

def pA : Proposal :=
  { recipient := 2, amount := 0, description := [], voting_deadline := 100,
    open_ := true, proposal_passed := false, proposal_hash := 0,
    proposal_deposit := 0, new_curator := false, pre_support := true,
    yea := 1, nay := 0, voted_yes := fun _ => false, voted_no := fun _ => false,
    creator := 5 }

def daoA : Dao :=
  { proposals := [default, pA], min_quorum_divisor := 7,
    last_time_min_quorum_met := 0, curator := 3,
    allowed_recipients := fun a => a == 2, blocked := fun _ => 0,
    voting_register := fun _ => [], proposal_deposit := 0,
    sum_of_proposal_deposits := 0 }

def rA : ExecResult := (execute_proposal keccak0 true envA daoA 1 [] []).getD default

def sdA : Dao := rA.dispatched.getD default

/-- Witness for C1: a concrete passing run of execute_proposal on daoA
dispatches with the guard already set, and the immediate re-entrant call
on the dispatch-time state is rejected at step 2. -/
theorem C1_reentrancy_guard_witness :
    (∃ q, sdA.proposals[1]? = some q ∧ q.proposal_passed = true)
    ∧ execute_proposal keccak0 true envA sdA 1 [] [] =
        some ⟨sdA, .error .ProposalExecutionFailed, [], none⟩ := by
  have h := C1_reentrancy_guard keccak0 true envA daoA 1 [] [] rA sdA rfl rfl
  exact ⟨h.1, h.2.1 keccak0 true envA [] [] rfl⟩

def env10 : Env := ⟨8, 100, 0, 0, 0⟩

def p10 : Proposal :=
  { recipient := 2, amount := 0, description := [], voting_deadline := 100,
    open_ := true, proposal_passed := false, proposal_hash := 0,
    proposal_deposit := 0, new_curator := false, pre_support := false,
    yea := 0, nay := 0, voted_yes := fun _ => false, voted_no := fun _ => false,
    creator := 5 }

def dao10 : Dao :=
  { proposals := [default, p10], min_quorum_divisor := 7,
    last_time_min_quorum_met := 0, curator := 3,
    allowed_recipients := fun a => a == 2, blocked := fun _ => 0,
    voting_register := fun _ => [], proposal_deposit := 0,
    sum_of_proposal_deposits := 0 }

def r10 : ExecResult := (execute_proposal keccak0 true env10 dao10 1 [] []).getD default

/-- Witness for C10: a run on a proposal that is REJECTED (pre_support is
false, yea = nay = 0) still emits ProposalTallied with result = true. -/
theorem C10_tallied_event_always_true_witness :
    r10.events.all tallied_true = true
    ∧ r10.events = [.ProposalTallied 1 true 0] :=
  ⟨C10_tallied_event_always_true keccak0 true env10 dao10 1 [] [] r10 rfl, rfl⟩

/-! ## C8: un_vote_all and the voting_register -/

def env8 : Env := ⟨7, 50, 0, 0, 0⟩

def p8a : Proposal :=
  { recipient := 2, amount := 0, description := [], voting_deadline := 100,
    open_ := true, proposal_passed := false, proposal_hash := 0,
    proposal_deposit := 0, new_curator := false, pre_support := false,
    yea := 0, nay := 0, voted_yes := fun _ => false, voted_no := fun _ => false,
    creator := 5 }

def p8b : Proposal :=
  { recipient := 2, amount := 0, description := [], voting_deadline := 100,
    open_ := true, proposal_passed := false, proposal_hash := 0,
    proposal_deposit := 0, new_curator := false, pre_support := false,
    yea := 1, nay := 0, voted_yes := fun a => a == 7, voted_no := fun _ => false,
    creator := 5 }

def dao8 : Dao :=
  { proposals := [default, p8a, p8b], min_quorum_divisor := 7,
    last_time_min_quorum_met := 0, curator := 3,
    allowed_recipients := fun _ => false, blocked := fun _ => 0,
    voting_register := fun a => if a = 7 then [2] else [],
    proposal_deposit := 0, sum_of_proposal_deposits := 0 }

/-- C8: the claim matches the evident intent but not the code, which has two
slips.  First, vote reads the caller's voting_register into a local, pushes
the proposal id onto the copy and never writes it back, so after voter 7
votes on proposal 1 their stored register still holds only [2].  Second,
un_vote_all reads proposals[register[i]] for the deadline check but then
calls un_vote(i) with the LOOP INDEX i, so with register [2] it un-votes
the sentinel proposal 0 instead of proposal 2: voter 7's still-open yes
vote on proposal 2 (cast before its deadline 100, at time 50) survives
with yea = 1 and the flag set, even though the register is cleared and the
blocked pointer reset to the sentinel 0. -/
theorem C8_un_vote_all_code_bug :
    ((vote env8 dao8 1 true).map (fun r => r.1.voting_register 7) = some [2])
    ∧ ((un_vote_all env8 dao8).map
        (fun s => ((s.proposals.getD 2 default).yea,
                   (s.proposals.getD 2 default).voted_yes 7,
                   s.voting_register 7, s.blocked 7))
        = some (1, true, [], 0)) :=
  ⟨rfl, rfl⟩

/-! ## C4: the deposit ledger invariant -/

/-- The contribution of one proposal to the escrow total: its deposit while
open, nothing once closed. -/
def contrib (p : Proposal) : Nat :=
  if p.open_ = true then p.proposal_deposit else 0

def openDeposits : List Proposal → Nat
  | [] => 0
  | p :: ps => contrib p + openDeposits ps

/-- The ledger invariant of the claim: sum_of_proposal_deposits equals the
sum of proposal_deposit over all proposals with open = true. -/
def depositInvariant (s : Dao) : Prop :=
  s.sum_of_proposal_deposits = openDeposits s.proposals

theorem openDeposits_append (l1 l2 : List Proposal) :
    openDeposits (l1 ++ l2) = openDeposits l1 + openDeposits l2 := by
  induction l1 with
  | nil => simp [openDeposits]
  | cons p ps ih =>
    show contrib p + openDeposits (ps ++ l2)
      = contrib p + openDeposits ps + openDeposits l2
    rw [ih]
    omega

theorem openDeposits_set {l : List Proposal} {i : Nat} {p : Proposal}
    (hp : l[i]? = some p) (q : Proposal) :
    openDeposits (l.set i q) + contrib p = openDeposits l + contrib q := by
  induction l generalizing i with
  | nil => simp at hp
  | cons x xs ih =>
    cases i with
    | zero =>
      simp only [List.getElem?_cons_zero, Option.some_inj] at hp
      subst hp
      simp only [List.set_cons_zero, openDeposits]
      omega
    | succ n =>
      simp only [List.getElem?_cons_succ] at hp
      simp only [List.set_cons_succ, openDeposits]
      have := ih hp
      omega

theorem contrib_le {l : List Proposal} {i : Nat} {p : Proposal}
    (hp : l[i]? = some p) : contrib p ≤ openDeposits l := by
  induction l generalizing i with
  | nil => simp at hp
  | cons x xs ih =>
    cases i with
    | zero =>
      simp only [List.getElem?_cons_zero, Option.some_inj] at hp
      subst hp
      simp only [openDeposits]
      omega
    | succ n =>
      simp only [List.getElem?_cons_succ] at hp
      have := ih hp
      simp only [openDeposits]
      omega

theorem contrib_unVoted (c : AccountId) (p : Proposal) :
    contrib (unVoted c p) = contrib p := by
  unfold contrib
  rw [(unVoted_fields c p).2.1, (unVoted_fields c p).2.2.1]

theorem contrib_voteBump (c : AccountId) (b : Bool) (p : Proposal) :
    contrib (voteBump c b p) = contrib p := by
  unfold contrib
  rw [(voteBump_fields c b p).2.1, (voteBump_fields c b p).2.2]

theorem un_vote_preserves {env : Env} {s s' : Dao} {id : Nat}
    (h : un_vote env s id = some s') :
    s'.sum_of_proposal_deposits = s.sum_of_proposal_deposits
    ∧ openDeposits s'.proposals = openDeposits s.proposals := by
  cases hp : s.proposals[id]? with
  | none =>
    unfold un_vote at h
    rw [hp] at h
    exact absurd h (by simp)
  | some p =>
    rcases le_or_lt p.voting_deadline env.now with hnow | hnow
    · rw [un_vote_late hp hnow] at h
      obtain rfl := Option.some_inj.mp h
      exact ⟨rfl, rfl⟩
    · rw [un_vote_early hp hnow] at h
      obtain rfl := Option.some_inj.mp h
      refine ⟨rfl, ?_⟩
      have hset := openDeposits_set hp (unVoted env.caller p)
      have hc := contrib_unVoted env.caller p
      dsimp only
      omega

theorem vote_success_shape {env : Env} {s : Dao} {id : Nat} {b : Bool}
    {r : Dao × List Event} (h : vote env s id b = some r) :
    ∃ s0 p, un_vote env s id = some s0 ∧ s0.proposals[id]? = some p
      ∧ r.1.proposals = s0.proposals.set id (voteBump env.caller b p)
      ∧ r.1.sum_of_proposal_deposits = s0.sum_of_proposal_deposits
      ∧ r.1.voting_register = s0.voting_register := by
  unfold vote at h
  cases huv : un_vote env s id with
  | none => rw [huv] at h; exact absurd h (by simp)
  | some s0 =>
    rw [huv] at h
    dsimp only at h
    cases hp0 : s0.proposals[id]? with
    | none => rw [hp0] at h; exact absurd h (by simp)
    | some p =>
      rw [hp0] at h
      dsimp only at h
      rw [show
        (if b then
          { p with yea := p.yea + 1,
                   voted_yes := mapInsert p.voted_yes env.caller true }
         else
          { p with nay := p.nay + 1,
                   voted_no := mapInsert p.voted_no env.caller true })
          = voteBump env.caller b p from rfl] at h
      by_cases hbz : s0.blocked env.caller = 0
      · rw [if_pos hbz] at h
        dsimp only at h
        obtain rfl := Option.some_inj.mp h
        exact ⟨s0, p, rfl, hp0, rfl, rfl, rfl⟩
      · rw [if_neg hbz] at h
        cases hbp :
            (s0.proposals.set id
              (voteBump env.caller b p))[s0.blocked env.caller]? with
        | none => rw [hbp] at h; exact absurd h (by simp)
        | some bp =>
          rw [hbp] at h
          dsimp only at h
          split at h
          · exact Option.noConfusion h
          next s2 heq =>
            obtain rfl := Option.some_inj.mp h
            split at heq
            · obtain rfl := Option.some_inj.mp heq
              exact ⟨s0, p, rfl, hp0, rfl, rfl, rfl⟩
            · obtain rfl := Option.some_inj.mp heq
              exact ⟨s0, p, rfl, hp0, rfl, rfl, rfl⟩

theorem vote_preserves {env : Env} {s : Dao} {id : Nat} {b : Bool}
    {r : Dao × List Event} (h : vote env s id b = some r) :
    r.1.sum_of_proposal_deposits = s.sum_of_proposal_deposits
    ∧ openDeposits r.1.proposals = openDeposits s.proposals := by
  obtain ⟨s0, p, huv, hp0, hprop, hsum, _⟩ := vote_success_shape h
  obtain ⟨h1, h2⟩ := un_vote_preserves huv
  have hset := openDeposits_set hp0 (voteBump env.caller b p)
  have hc := contrib_voteBump env.caller b p
  constructor
  · omega
  · rw [hprop]
    omega

theorem un_vote_all_loop_preserves {env : Env} :
    ∀ (pairs : List (Nat × Nat)) (s s' : Dao),
    un_vote_all_loop env s pairs = some s' →
    s'.sum_of_proposal_deposits = s.sum_of_proposal_deposits
    ∧ openDeposits s'.proposals = openDeposits s.proposals := by
  intro pairs
  induction pairs with
  | nil =>
    intro s s' h
    unfold un_vote_all_loop at h
    obtain rfl := Option.some_inj.mp h
    exact ⟨rfl, rfl⟩
  | cons ip rest ih =>
    intro s s' h
    obtain ⟨i, pid⟩ := ip
    unfold un_vote_all_loop at h
    cases hp : s.proposals[pid]? with
    | none => rw [hp] at h; exact absurd h (by simp)
    | some p =>
      rw [hp] at h
      dsimp only at h
      split at h
      · exact Option.noConfusion h
      next s1 heq =>
        have hstep : s1.sum_of_proposal_deposits = s.sum_of_proposal_deposits
            ∧ openDeposits s1.proposals = openDeposits s.proposals := by
          split at heq
          · exact un_vote_preserves heq
          · obtain rfl := Option.some_inj.mp heq
            exact ⟨rfl, rfl⟩
        obtain ⟨h1, h2⟩ := hstep
        obtain ⟨h3, h4⟩ := ih s1 s' h
        exact ⟨by omega, by omega⟩

theorem un_vote_all_preserves {env : Env} {s s' : Dao}
    (h : un_vote_all env s = some s') :
    s'.sum_of_proposal_deposits = s.sum_of_proposal_deposits
    ∧ openDeposits s'.proposals = openDeposits s.proposals := by
  unfold un_vote_all at h
  dsimp only at h
  cases hl : un_vote_all_loop env s (s.voting_register env.caller).enum with
  | none => rw [hl] at h; exact absurd h (by simp)
  | some s1 =>
    rw [hl] at h
    dsimp only at h
    obtain rfl := Option.some_inj.mp h
    obtain ⟨h1, h2⟩ := un_vote_all_loop_preserves _ s s1 hl
    exact ⟨h1, h2⟩

theorem close_preserves {s s' : Dao} {id : Nat}
    (h : close_proposal s id = some s') (hinv : depositInvariant s) :
    depositInvariant s' := by
  unfold close_proposal at h
  cases hp : s.proposals[id]? with
  | none => rw [hp] at h; exact absurd h (by simp)
  | some p =>
    rw [hp] at h
    dsimp only at h
    have hset := openDeposits_set hp { p with open_ := false }
    have hle := contrib_le hp
    have hcq : contrib { p with open_ := false } = 0 := by
      unfold contrib
      simp
    split at h
    · next ho =>
      obtain rfl := Option.some_inj.mp h
      unfold depositInvariant at hinv ⊢
      dsimp only
      have hcp : contrib p = p.proposal_deposit := by
        unfold contrib
        rw [if_pos ho]
      omega
    · next ho =>
      obtain rfl := Option.some_inj.mp h
      unfold depositInvariant at hinv ⊢
      dsimp only
      have hcp : contrib p = 0 := by
        unfold contrib
        rw [if_neg ho]
      omega

theorem new_proposal_preserves {k : Keccak} {env : Env} {s : Dao}
    {recipient amount : Nat} {d td : List Nat} {dp : Nat}
    (hinv : depositInvariant s) :
    depositInvariant (new_proposal k env s recipient amount d td dp).1 := by
  unfold new_proposal
  dsimp only
  split
  · exact hinv
  · split
    all_goals
      unfold depositInvariant at hinv ⊢
      dsimp only
      rw [openDeposits_append]
      simp [openDeposits, contrib]
      omega

theorem execute_preserves {k : Keccak} {ok : Bool} {env : Env} {s : Dao}
    {id : Nat} {sel td : List Nat} {r : ExecResult}
    (h : execute_proposal k ok env s id sel td = some r)
    (hinv : depositInvariant s) : depositInvariant r.dao := by
  unfold execute_proposal at h
  cases hp : s.proposals[id]? with
  | none => rw [hp] at h; exact absurd h (by simp)
  | some p =>
    rw [hp] at h
    dsimp only at h
    have hsetpass := openDeposits_set hp { p with proposal_passed := true }
    have hcpass : contrib { p with proposal_passed := true } = contrib p := rfl
    repeat' split at h
    all_goals first
      | exact Option.noConfusion h
      | (obtain rfl := Option.some_inj.mp h
         first
           | exact hinv
           | (unfold depositInvariant at hinv ⊢
              dsimp only
              omega))
      | (obtain ⟨s2, hs2, hr⟩ := Option.map_eq_some'.mp h
         rw [← hr]
         dsimp only
         refine close_preserves hs2 ?_
         first
           | exact hinv
           | (unfold depositInvariant at hinv ⊢
              dsimp only
              omega))

theorem change_proposal_deposit_preserves {env : Env} {s : Dao} {v : Nat}
    (hinv : depositInvariant s) :
    depositInvariant (change_proposal_deposit env s v) := by
  unfold change_proposal_deposit
  split
  · exact hinv
  · exact hinv

theorem change_allowed_preserves {env : Env} {s : Dao} {recipient : AccountId}
    {al : Bool} (hinv : depositInvariant s) :
    depositInvariant (change_allowed_recipients env s recipient al).1 := by
  unfold change_allowed_recipients
  split
  · exact hinv
  · exact hinv

theorem halve_preserves {env : Env} {s : Dao} (hinv : depositInvariant s) :
    depositInvariant (halve_min_quorum env s).1 := by
  unfold halve_min_quorum
  split
  · exact hinv
  · exact hinv

theorem unblock_me_preserves {env : Env} {s : Dao} {r : Dao × Bool}
    (h : unblock_me env s = some r) (hinv : depositInvariant s) :
    depositInvariant r.1 := by
  unfold unblock_me get_or_modify_blocked at h
  dsimp only at h
  repeat' split at h
  all_goals first
    | exact Option.noConfusion h
    | (obtain rfl := Option.some_inj.mp h; exact hinv)

/-- One public operation of the contract, with an arbitrary host
environment (check_proposal_code and number_of_proposals mutate nothing
and are omitted). -/
inductive Step : Dao → Dao → Prop
  | op_new_proposal (k : Keccak) (env : Env) (recipient amount : Nat)
      (d td : List Nat) (dp : Nat) (s : Dao) :
      Step s (new_proposal k env s recipient amount d td dp).1
  | op_vote (env : Env) (id : Nat) (b : Bool) (s : Dao) (r : Dao × List Event) :
      vote env s id b = some r → Step s r.1
  | op_un_vote (env : Env) (id : Nat) (s s' : Dao) :
      un_vote env s id = some s' → Step s s'
  | op_un_vote_all (env : Env) (s s' : Dao) :
      un_vote_all env s = some s' → Step s s'
  | op_execute_proposal (k : Keccak) (ok : Bool) (env : Env) (id : Nat)
      (sel td : List Nat) (s : Dao) (r : ExecResult) :
      execute_proposal k ok env s id sel td = some r → Step s r.dao
  | op_change_proposal_deposit (env : Env) (v : Nat) (s : Dao) :
      Step s (change_proposal_deposit env s v)
  | op_change_allowed_recipients (env : Env) (recipient : AccountId)
      (al : Bool) (s : Dao) :
      Step s (change_allowed_recipients env s recipient al).1
  | op_halve_min_quorum (env : Env) (s : Dao) :
      Step s (halve_min_quorum env s).1
  | op_unblock_me (env : Env) (s : Dao) (r : Dao × Bool) :
      unblock_me env s = some r → Step s r.1

/-- States reachable from a freshly constructed contract by public
operations. -/
inductive Reachable : Dao → Prop
  | base (env : Env) (curator : AccountId) (dp : Nat) :
      Reachable (dao_new env curator dp)
  | step {s s' : Dao} : Reachable s → Step s s' → Reachable s'

theorem reachable_invariant {s : Dao} (h : Reachable s) : depositInvariant s := by
  induction h with
  | base env c dp => rfl
  | step hr hstep ih =>
    cases hstep with
    | op_new_proposal k env recipient amount d td dp s =>
      exact new_proposal_preserves ih
    | op_vote env id b s r hv =>
      obtain ⟨h1, h2⟩ := vote_preserves hv
      unfold depositInvariant at ih ⊢
      omega
    | op_un_vote env id s s' huv =>
      obtain ⟨h1, h2⟩ := un_vote_preserves huv
      unfold depositInvariant at ih ⊢
      omega
    | op_un_vote_all env s s' huva =>
      obtain ⟨h1, h2⟩ := un_vote_all_preserves huva
      unfold depositInvariant at ih ⊢
      omega
    | op_execute_proposal k ok env id sel td s r hex =>
      exact execute_preserves hex ih
    | op_change_proposal_deposit env v s =>
      exact change_proposal_deposit_preserves ih
    | op_change_allowed_recipients env recipient al s =>
      exact change_allowed_preserves ih
    | op_halve_min_quorum env s =>
      exact halve_preserves ih
    | op_unblock_me env s r hub =>
      exact unblock_me_preserves hub ih

theorem close_closed {t : Dao} {id : Nat} {p : Proposal}
    (hp : t.proposals[id]? = some p) (hopen : p.open_ = false) :
    ∃ t', close_proposal t id = some t'
      ∧ t'.sum_of_proposal_deposits = t.sum_of_proposal_deposits := by
  unfold close_proposal
  rw [hp]
  dsimp only
  rw [if_neg (by simp [hopen])]
  exact ⟨_, rfl, rfl⟩

/-- C4: in every state reachable by the public operations,
sum_of_proposal_deposits equals the sum of proposal_deposit over the
proposals with open = true; and close_proposal is idempotent in its
ledger effect: on an open proposal it subtracts exactly that deposit and
sets open = false, and a second call subtracts nothing further. -/
theorem C4_deposit_ledger (s : Dao) (hs : Reachable s) :
    depositInvariant s
    ∧ (∀ (t : Dao) (id : Nat) (p : Proposal),
        t.proposals[id]? = some p → p.open_ = true →
        p.proposal_deposit ≤ t.sum_of_proposal_deposits →
        ∃ t', close_proposal t id = some t'
          ∧ t'.sum_of_proposal_deposits + p.proposal_deposit
              = t.sum_of_proposal_deposits
          ∧ t'.proposals[id]? = some { p with open_ := false }
          ∧ ∃ t'', close_proposal t' id = some t''
              ∧ t''.sum_of_proposal_deposits = t'.sum_of_proposal_deposits) := by
  refine ⟨reachable_invariant hs, ?_⟩
  intro t id p hp hopen hdep
  have hlen : id < t.proposals.length := (List.getElem?_eq_some.mp hp).1
  have hc1 : close_proposal t id =
      some { t with
        sum_of_proposal_deposits :=
          t.sum_of_proposal_deposits - p.proposal_deposit,
        proposals := t.proposals.set id { p with open_ := false } } := by
    unfold close_proposal
    rw [hp]
    dsimp only
    rw [if_pos hopen]
  have hp' :
      ({ t with
        sum_of_proposal_deposits :=
          t.sum_of_proposal_deposits - p.proposal_deposit,
        proposals := t.proposals.set id { p with open_ := false } } :
          Dao).proposals[id]? = some { p with open_ := false } :=
    List.getElem?_set_self hlen
  refine ⟨_, hc1, by dsimp only; omega, hp', ?_⟩
  exact close_closed hp' rfl

def envW : Env := ⟨0, 0, 0, 2, 0⟩

def envNP : Env := ⟨7, 0, 5, 2, 100⟩

def daoNP : Dao :=
  (new_proposal keccak0 envNP (dao_new envW 3 1) 2 0 [] []
    MIN_PROPOSAL_DEBATE_PERIOD).1

/-- Witness for C4: the invariant holds in the concrete reachable state
daoNP (constructed contract plus one successful proposal with deposit 5),
and closing the open proposal 1 of dao9 removes exactly its deposit 3
while a second close removes nothing. -/
theorem C4_deposit_ledger_witness :
    depositInvariant daoNP
    ∧ (∃ t', close_proposal dao9 1 = some t'
        ∧ t'.sum_of_proposal_deposits + 3 = 3
        ∧ ∃ t'', close_proposal t' 1 = some t''
            ∧ t''.sum_of_proposal_deposits = t'.sum_of_proposal_deposits) := by
  have h := C4_deposit_ledger daoNP
    (Reachable.step (Reachable.base envW 3 1)
      (Step.op_new_proposal keccak0 envNP 2 0 [] []
        MIN_PROPOSAL_DEBATE_PERIOD (dao_new envW 3 1)))
  obtain ⟨t', h1, h2, _, t'', h4, h5⟩ := h.2 dao9 1 p9 rfl rfl (by decide)
  exact ⟨h.1, t', h1, by simpa [p9, dao9] using h2, t'', h4, h5⟩
